import Mathlib

/-!
Verification of the n8n-clone workflow data model and (spec-designed)
execution engine.

The definitions below are shallow embeddings of:
* the Prisma schema (models Workflow, Node, Connection; enum NodeType)
  and the workflows.getOne tRPC procedure, both quoted in
  src/docs/node-status-indicator-fixes.md;
* the node component registry (config/node-components.ts) and the
  NodeStatusIndicator component (components/react-flow/node-status-indicator.tsx);
* the HTTP-request placeholder executor
  (features/executions/components/http-request/executor.ts) and the
  HttpRequestNode editor component;
* the execution-engine design (graph, reachability, planner) that exists
  only in the specification; those definitions are marked
  "Modelled from the spec".
-/

/-- JSON values, standing for the Prisma `Json` column type used by
`Node.position` and `Node.data`. -/
inductive Json where
  | null : Json
  | bool (b : Bool) : Json
  | num (n : Int) : Json
  | str (s : String) : Json
  | arr (elems : List Json) : Json
  | obj (fields : List (String × Json)) : Json

/-- Prisma enum `NodeType`; the schema declares the single member `INITIAL`. -/
inductive NodeType where
  | INITIAL : NodeType
deriving DecidableEq, Repr

/-- Name of a `NodeType` member as written in the schema. -/
def NodeType.name : NodeType → String
  | .INITIAL => "INITIAL"

/-- Prisma model `Workflow` (scalar fields; timestamps omitted as they carry
no graph semantics). -/
structure Workflow where
  id : String
  name : String
  userId : String

/-- Prisma model `Node`: a stored workflow node. -/
structure Node where
  id : String
  workflowId : String
  name : String
  type : NodeType
  position : Json
  data : Json

/-- Prisma model `Connection`: a stored directed edge between two nodes,
with named ports. The schema gives `fromOutput` and `toInput` the default
value "main". -/
structure Connection where
  id : String
  workflowId : String
  fromNodeId : String
  toNodeId : String
  fromOutput : String
  toInput : String
deriving DecidableEq, Repr

/-- Insert-time view of a connection: the port columns are optional and
fall back to the schema default "main" when not explicitly set. -/
structure ConnectionInput where
  id : String
  workflowId : String
  fromNodeId : String
  toNodeId : String
  fromOutput : Option String
  toInput : Option String

/-- Applying the schema defaults to an insert produces the stored record. -/
def ConnectionInput.toRecord (ci : ConnectionInput) : Connection :=
  { id := ci.id
    workflowId := ci.workflowId
    fromNodeId := ci.fromNodeId
    toNodeId := ci.toNodeId
    fromOutput := ci.fromOutput.getD "main"
    toInput := ci.toInput.getD "main" }

/-- Database state of the persistence layer: the three Prisma tables. -/
structure Db where
  workflows : List Workflow
  nodes : List Node
  connections : List Connection

/-- Key set of the Workflow table. -/
def Db.workflowIds (db : Db) : List String := db.workflows.map Workflow.id

/-- Key set of the Node table. -/
def Db.nodeIds (db : Db) : List String := db.nodes.map Node.id

/-- Key set of the Connection table. -/
def Db.connectionIds (db : Db) : List String := db.connections.map Connection.id

/-- The column tuple covered by the schema constraint
`@@unique([fromNodeId, toNodeId, fromOutput, toInput])`. -/
def connTuple (c : Connection) : String × String × String × String :=
  (c.fromNodeId, c.toNodeId, c.fromOutput, c.toInput)

/-- React Flow node produced by `getOne`: exactly the fields
id, type, position, data. -/
structure RFNode where
  id : String
  type : NodeType
  position : Json
  data : Json

/-- React Flow edge produced by `getOne`: exactly the fields
id, source, target, sourceHandle, targetHandle. -/
structure RFEdge where
  id : String
  source : String
  target : String
  sourceHandle : String
  targetHandle : String

/-- Per-node transformation inside `getOne`. -/
def nodeToRF (n : Node) : RFNode :=
  { id := n.id, type := n.type, position := n.position, data := n.data }

/-- Per-connection transformation inside `getOne`. -/
def connectionToRF (c : Connection) : RFEdge :=
  { id := c.id
    source := c.fromNodeId
    target := c.toNodeId
    sourceHandle := c.fromOutput
    targetHandle := c.toInput }

/-- Result shape of the `workflows.getOne` procedure. -/
structure WorkflowGraphView where
  id : String
  name : String
  nodes : List RFNode
  edges : List RFEdge

/-- The `workflows.getOne` tRPC procedure: look up the workflow, include its
nodes and connections, and transform them into React Flow format. The Prisma
`include` fetches exactly the rows whose `workflowId` matches. -/
def Db.getOne (db : Db) (wid : String) : Option WorkflowGraphView :=
  match db.workflows.find? (fun w => decide (w.id = wid)) with
  | none => none
  | some w =>
      some
        { id := w.id
          name := w.name
          nodes := (db.nodes.filter (fun n => decide (n.workflowId = wid))).map nodeToRF
          edges :=
            (db.connections.filter (fun c => decide (c.workflowId = wid))).map connectionToRF }

/-- C1: getOne returns a graph whose node list maps each stored node of the
workflow, in order, to exactly (id, type, position, data), and whose edge list
maps each stored connection, in order, to exactly
(id, source = fromNodeId, target = toNodeId, sourceHandle = fromOutput,
targetHandle = toInput); fromOutput and toInput default to "main" when not
explicitly set at insert time; lengths are preserved and the i-th output
entry comes from the i-th stored row, so nothing is added, dropped, or
reordered. -/
theorem getOne_maps_nodes_and_edges_exactly (db : Db) (wid : String)
    (g : WorkflowGraphView) (h : db.getOne wid = some g) :
    (g.nodes = (db.nodes.filter (fun n => decide (n.workflowId = wid))).map nodeToRF ∧
     g.edges =
       (db.connections.filter (fun c => decide (c.workflowId = wid))).map connectionToRF) ∧
    (g.nodes.length = (db.nodes.filter (fun n => decide (n.workflowId = wid))).length ∧
     g.edges.length =
       (db.connections.filter (fun c => decide (c.workflowId = wid))).length) ∧
    (∀ i : Fin (db.nodes.filter (fun n => decide (n.workflowId = wid))).length,
      ∀ hi : i.val < g.nodes.length,
        g.nodes.get ⟨i.val, hi⟩ =
          { id := ((db.nodes.filter (fun n => decide (n.workflowId = wid))).get i).id
            type := ((db.nodes.filter (fun n => decide (n.workflowId = wid))).get i).type
            position :=
              ((db.nodes.filter (fun n => decide (n.workflowId = wid))).get i).position
            data := ((db.nodes.filter (fun n => decide (n.workflowId = wid))).get i).data }) ∧
    (∀ j : Fin (db.connections.filter (fun c => decide (c.workflowId = wid))).length,
      ∀ hj : j.val < g.edges.length,
        g.edges.get ⟨j.val, hj⟩ =
          { id := ((db.connections.filter (fun c => decide (c.workflowId = wid))).get j).id
            source :=
              ((db.connections.filter (fun c => decide (c.workflowId = wid))).get j).fromNodeId
            target :=
              ((db.connections.filter (fun c => decide (c.workflowId = wid))).get j).toNodeId
            sourceHandle :=
              ((db.connections.filter (fun c => decide (c.workflowId = wid))).get j).fromOutput
            targetHandle :=
              ((db.connections.filter (fun c => decide (c.workflowId = wid))).get j).toInput }) ∧
    (∀ ci : ConnectionInput, ci.fromOutput = none → ci.toInput = none →
      ci.toRecord.fromOutput = "main" ∧ ci.toRecord.toInput = "main") := by
  have hshape :
      g.nodes = (db.nodes.filter (fun n => decide (n.workflowId = wid))).map nodeToRF ∧
      g.edges =
        (db.connections.filter (fun c => decide (c.workflowId = wid))).map connectionToRF := by
    unfold Db.getOne at h
    cases hf : db.workflows.find? (fun w => decide (w.id = wid)) with
    | none => rw [hf] at h; exact absurd h (by simp)
    | some w =>
        rw [hf] at h
        have := Option.some.inj h
        constructor
        · rw [← this]
        · rw [← this]
  refine ⟨hshape, ⟨?_, ?_⟩, ?_, ?_, ?_⟩
  · rw [hshape.1, List.length_map]
  · rw [hshape.2, List.length_map]
  · intro i hi
    simp only [hshape.1, List.get_eq_getElem, List.getElem_map]
    simp [nodeToRF]
  · intro j hj
    simp only [hshape.2, List.get_eq_getElem, List.getElem_map]
    simp [connectionToRF]
  · intro ci h1 h2
    constructor
    · simp [ConnectionInput.toRecord, h1]
    · simp [ConnectionInput.toRecord, h2]

/-- Empty database. -/
def Db.empty : Db := { workflows := [], nodes := [], connections := [] }

/-- Insert a workflow row; fails when the primary key is taken. -/
def Db.createWorkflow (db : Db) (w : Workflow) : Option Db :=
  if w.id ∈ db.workflowIds then none
  else some { db with workflows := db.workflows ++ [w] }

/-- Insert a node row; fails when the primary key is taken or the
workflow foreign key does not resolve. -/
def Db.createNode (db : Db) (n : Node) : Option Db :=
  if n.id ∈ db.nodeIds ∨ n.workflowId ∉ db.workflowIds then none
  else some { db with nodes := db.nodes ++ [n] }

/-- Insert a connection row, applying the "main" port defaults. The insert
fails when the primary key is taken, a foreign key (workflow or either
endpoint node) does not resolve, or the unique constraint on
(fromNodeId, toNodeId, fromOutput, toInput) would be violated. -/
def Db.createConnection (db : Db) (ci : ConnectionInput) : Option Db :=
  if ci.toRecord.id ∈ db.connectionIds ∨ ci.toRecord.workflowId ∉ db.workflowIds ∨
     ci.toRecord.fromNodeId ∉ db.nodeIds ∨ ci.toRecord.toNodeId ∉ db.nodeIds ∨
     (∃ c0 ∈ db.connections, connTuple c0 = connTuple ci.toRecord) then none
  else some { db with connections := db.connections ++ [ci.toRecord] }

/-- Update a node row in place (name, position, data); the id and the
owning workflow never change. -/
def Db.updateNode (db : Db) (nid : String) (nm : String) (pos dat : Json) : Db :=
  { db with
      nodes := db.nodes.map (fun n =>
        if n.id = nid then { n with name := nm, position := pos, data := dat } else n) }

/-- Delete a node row. Per the schema, both `Connection.fromNode` and
`Connection.toNode` carry `onDelete: Cascade`, so every connection whose
either endpoint is the node is deleted with it. -/
def Db.deleteNode (db : Db) (nid : String) : Db :=
  { db with
      nodes := db.nodes.filter (fun n => !(decide (n.id = nid)))
      connections := db.connections.filter (fun c =>
        !(decide (c.fromNodeId = nid)) && !(decide (c.toNodeId = nid))) }

/-- Delete a connection row. -/
def Db.deleteConnection (db : Db) (cid : String) : Db :=
  { db with connections := db.connections.filter (fun c => !(decide (c.id = cid))) }

/-- Delete a workflow row. Per the schema, nodes and connections cascade
from the workflow, and connections additionally cascade from each deleted
endpoint node. -/
def Db.deleteWorkflow (db : Db) (wid : String) : Db :=
  let deadNodeIds := (db.nodes.filter (fun n => decide (n.workflowId = wid))).map Node.id
  { workflows := db.workflows.filter (fun w => !(decide (w.id = wid)))
    nodes := db.nodes.filter (fun n => !(decide (n.workflowId = wid)))
    connections := db.connections.filter (fun c =>
      !(decide (c.workflowId = wid)) && !(decide (c.fromNodeId ∈ deadNodeIds)) &&
        !(decide (c.toNodeId ∈ deadNodeIds))) }

/-- States of the persistence layer reachable from the empty database by
the CRUD operations. -/
inductive DbReachable : Db → Prop where
  | empty : DbReachable Db.empty
  | createWorkflow {db db2 : Db} {w : Workflow} :
      DbReachable db → db.createWorkflow w = some db2 → DbReachable db2
  | createNode {db db2 : Db} {n : Node} :
      DbReachable db → db.createNode n = some db2 → DbReachable db2
  | createConnection {db db2 : Db} {ci : ConnectionInput} :
      DbReachable db → db.createConnection ci = some db2 → DbReachable db2
  | updateNode {db : Db} (nid nm : String) (pos dat : Json) :
      DbReachable db → DbReachable (db.updateNode nid nm pos dat)
  | deleteNode {db : Db} (nid : String) :
      DbReachable db → DbReachable (db.deleteNode nid)
  | deleteConnection {db : Db} (cid : String) :
      DbReachable db → DbReachable (db.deleteConnection cid)
  | deleteWorkflow {db : Db} (wid : String) :
      DbReachable db → DbReachable (db.deleteWorkflow wid)

/-- Invariant: no two stored connections agree on the whole port tuple. -/
def UniqueTuples (db : Db) : Prop :=
  db.connections.Pairwise (fun a b => connTuple a ≠ connTuple b)

/-- Invariant: every stored connection references existing nodes. -/
def NoDangling (db : Db) : Prop :=
  ∀ c ∈ db.connections, c.fromNodeId ∈ db.nodeIds ∧ c.toNodeId ∈ db.nodeIds

theorem uniqueTuples_of_reachable {db : Db} (h : DbReachable db) : UniqueTuples db := by
  induction h with
  | empty => exact List.Pairwise.nil
  | createWorkflow _ hop ih =>
      unfold Db.createWorkflow at hop
      split at hop
      · exact absurd hop (by simp)
      · cases hop; exact ih
  | createNode _ hop ih =>
      unfold Db.createNode at hop
      split at hop
      · exact absurd hop (by simp)
      · cases hop; exact ih
  | createConnection _ hop ih =>
      unfold Db.createConnection at hop
      split at hop
      · exact absurd hop (by simp)
      · next hguard =>
          cases hop
          unfold UniqueTuples at ih ⊢
          simp only
          rw [List.pairwise_append]
          refine ⟨ih, List.pairwise_singleton _ _, ?_⟩
          intro a ha b hb
          rw [List.mem_singleton] at hb
          subst hb
          intro heq
          exact hguard (Or.inr (Or.inr (Or.inr (Or.inr ⟨a, ha, heq⟩))))
  | updateNode nid nm pos dat _ ih => exact ih
  | deleteNode nid _ ih =>
      exact List.Pairwise.sublist (List.filter_sublist _) ih
  | deleteConnection cid _ ih =>
      exact List.Pairwise.sublist (List.filter_sublist _) ih
  | deleteWorkflow wid _ ih =>
      exact List.Pairwise.sublist (List.filter_sublist _) ih

theorem updateNode_nodeIds (db : Db) (nid nm : String) (pos dat : Json) :
    (db.updateNode nid nm pos dat).nodeIds = db.nodeIds := by
  simp only [Db.updateNode, Db.nodeIds, List.map_map]
  congr 1
  funext n
  by_cases h : n.id = nid <;> simp [h, Function.comp]

theorem noDangling_of_reachable {db : Db} (h : DbReachable db) : NoDangling db := by
  induction h with
  | empty => intro c hc; cases hc
  | createWorkflow _ hop ih =>
      unfold Db.createWorkflow at hop
      split at hop
      · exact absurd hop (by simp)
      · cases hop; exact fun c hc => ih c hc
  | createNode _ hop ih =>
      unfold Db.createNode at hop
      split at hop
      · exact absurd hop (by simp)
      · cases hop
        intro c hc
        have hold := ih c hc
        simp only [Db.nodeIds, List.map_append] at hold ⊢
        exact ⟨List.mem_append_left _ hold.1, List.mem_append_left _ hold.2⟩
  | createConnection _ hop ih =>
      unfold Db.createConnection at hop
      split at hop
      · exact absurd hop (by simp)
      · next hguard =>
          cases hop
          push_neg at hguard
          intro c hc
          rcases List.mem_append.mp hc with hcl | hcr
          · exact ih c hcl
          · rw [List.mem_singleton] at hcr
            subst hcr
            exact ⟨hguard.2.2.1, hguard.2.2.2.1⟩
  | updateNode nid nm pos dat _ ih =>
      intro c hc
      rw [updateNode_nodeIds]
      exact ih c hc
  | deleteNode nid _ ih =>
      intro c hc
      simp only [Db.deleteNode] at hc
      obtain ⟨hcdb, hpred⟩ := List.mem_filter.mp hc
      simp only [Bool.and_eq_true, Bool.not_eq_true', decide_eq_false_iff_not] at hpred
      obtain ⟨hf, ht⟩ := ih c hcdb
      simp only [Db.deleteNode, Db.nodeIds]
      constructor
      · obtain ⟨n, hn, hnid⟩ := List.mem_map.mp hf
        exact List.mem_map.mpr ⟨n, List.mem_filter.mpr ⟨hn, by simp [hnid, hpred.1]⟩, hnid⟩
      · obtain ⟨n, hn, hnid⟩ := List.mem_map.mp ht
        exact List.mem_map.mpr ⟨n, List.mem_filter.mpr ⟨hn, by simp [hnid, hpred.2]⟩, hnid⟩
  | deleteConnection cid _ ih =>
      intro c hc
      simp only [Db.deleteConnection] at hc
      exact ih c (List.mem_filter.mp hc).1
  | deleteWorkflow wid _ ih =>
      intro c hc
      simp only [Db.deleteWorkflow] at hc
      obtain ⟨hcdb, hpred⟩ := List.mem_filter.mp hc
      simp only [Bool.and_eq_true, Bool.not_eq_true', decide_eq_false_iff_not] at hpred
      obtain ⟨⟨hw, hfrom⟩, hto⟩ := hpred
      obtain ⟨hf, ht⟩ := ih c hcdb
      simp only [Db.deleteWorkflow, Db.nodeIds]
      constructor
      · obtain ⟨n, hn, hnid⟩ := List.mem_map.mp hf
        by_cases hnw : n.workflowId = wid
        · exact absurd
            (List.mem_map.mpr ⟨n, List.mem_filter.mpr ⟨hn, by simp [hnw]⟩, hnid⟩) hfrom
        · exact List.mem_map.mpr ⟨n, List.mem_filter.mpr ⟨hn, by simp [hnw]⟩, hnid⟩
      · obtain ⟨n, hn, hnid⟩ := List.mem_map.mp ht
        by_cases hnw : n.workflowId = wid
        · exact absurd
            (List.mem_map.mpr ⟨n, List.mem_filter.mpr ⟨hn, by simp [hnw]⟩, hnid⟩) hto
        · exact List.mem_map.mpr ⟨n, List.mem_filter.mpr ⟨hn, by simp [hnw]⟩, hnid⟩

/-- C2: for every reachable database state, no two stored connections share
the tuple (fromNodeId, toNodeId, fromOutput, toInput), and an insert whose
tuple duplicates a stored connection fails, returning none and hence leaving
the stored graph unchanged. -/
theorem connection_port_tuple_unique (db : Db) (hdb : DbReachable db) :
    db.connections.Pairwise (fun a b => connTuple a ≠ connTuple b) ∧
    ∀ ci : ConnectionInput,
      (∃ c0 ∈ db.connections, connTuple c0 = connTuple ci.toRecord) →
        db.createConnection ci = none := by
  refine ⟨uniqueTuples_of_reachable hdb, ?_⟩
  intro ci hdup
  unfold Db.createConnection
  rw [if_pos]
  exact Or.inr (Or.inr (Or.inr (Or.inr hdup)))

/-- Example workflow used by the concrete witnesses. -/
def wfA : Workflow := { id := "wf1", name := "My workflow", userId := "user1" }

/-- Example node used by the concrete witnesses. -/
def nodeA : Node :=
  { id := "n1", workflowId := "wf1", name := "Start", type := .INITIAL
    position := Json.obj [("x", Json.num 0), ("y", Json.num 0)], data := Json.obj [] }

/-- Second example node used by the concrete witnesses. -/
def nodeB : Node :=
  { id := "n2", workflowId := "wf1", name := "Next", type := .INITIAL
    position := Json.obj [("x", Json.num 100), ("y", Json.num 0)], data := Json.obj [] }

/-- Example connection insert (ports left unset, so they default to "main"). -/
def connInputAB : ConnectionInput :=
  { id := "c1", workflowId := "wf1", fromNodeId := "n1", toNodeId := "n2"
    fromOutput := none, toInput := none }

/-- Concrete database holding one workflow and nothing else. -/
def db1 : Db := { workflows := [wfA], nodes := [], connections := [] }

/-- Concrete database holding one workflow and one node. -/
def db2s : Db := { workflows := [wfA], nodes := [nodeA], connections := [] }

/-- Concrete database holding one workflow and two nodes. -/
def db3 : Db := { workflows := [wfA], nodes := [nodeA, nodeB], connections := [] }

/-- Concrete database holding one workflow, two nodes and one connection. -/
def db4 : Db :=
  { workflows := [wfA], nodes := [nodeA, nodeB], connections := [connInputAB.toRecord] }

theorem db4_reachable : DbReachable db4 :=
  @DbReachable.createConnection db3 db4 connInputAB
    (@DbReachable.createNode db2s db3 nodeB
      (@DbReachable.createNode db1 db2s nodeA
        (@DbReachable.createWorkflow Db.empty db1 wfA DbReachable.empty rfl) rfl) rfl) rfl

/-- Witness for C2 at the concrete database db4. -/
theorem connection_port_tuple_unique_witness :
    db4.connections.Pairwise (fun a b => connTuple a ≠ connTuple b) ∧
    db4.createConnection
        { id := "c2", workflowId := "wf1", fromNodeId := "n1", toNodeId := "n2"
          fromOutput := some "main", toInput := none } = none := by
  have h := connection_port_tuple_unique db4 db4_reachable
  exact ⟨h.1, h.2 _ ⟨connInputAB.toRecord, List.mem_singleton.mpr rfl, rfl⟩⟩

/-- C3: deleting a node also deletes every connection whose fromNodeId or
toNodeId is that node; deleting a workflow deletes all of its nodes and
connections; and in every reachable database state every stored connection
references existing nodes on both ends. -/
theorem cascade_delete_no_dangling_edges (db : Db) (nid wid : String)
    (hdb : DbReachable db) :
    (∀ c ∈ db.connections, c.fromNodeId = nid ∨ c.toNodeId = nid →
       c ∉ (db.deleteNode nid).connections) ∧
    (∀ n ∈ db.nodes, n.workflowId = wid → n ∉ (db.deleteWorkflow wid).nodes) ∧
    (∀ c ∈ db.connections, c.workflowId = wid → c ∉ (db.deleteWorkflow wid).connections) ∧
    (∀ c ∈ db.connections, c.fromNodeId ∈ db.nodeIds ∧ c.toNodeId ∈ db.nodeIds) := by
  refine ⟨?_, ?_, ?_, noDangling_of_reachable hdb⟩
  · intro c _ hor hmem
    simp only [Db.deleteNode] at hmem
    have hpred := (List.mem_filter.mp hmem).2
    simp only [Bool.and_eq_true, Bool.not_eq_true', decide_eq_false_iff_not] at hpred
    rcases hor with h1 | h2
    · exact hpred.1 h1
    · exact hpred.2 h2
  · intro n _ hnw hmem
    simp only [Db.deleteWorkflow] at hmem
    have hpred := (List.mem_filter.mp hmem).2
    simp only [Bool.not_eq_true', decide_eq_false_iff_not] at hpred
    exact hpred hnw
  · intro c _ hcw hmem
    simp only [Db.deleteWorkflow] at hmem
    have hpred := (List.mem_filter.mp hmem).2
    simp only [Bool.and_eq_true, Bool.not_eq_true', decide_eq_false_iff_not] at hpred
    exact hpred.1.1 hcw

/-- Witness for C3 at the concrete database db4. -/
theorem cascade_delete_no_dangling_edges_witness :
    (∀ c ∈ db4.connections, c.fromNodeId = "n1" ∨ c.toNodeId = "n1" →
       c ∉ (db4.deleteNode "n1").connections) ∧
    (∀ n ∈ db4.nodes, n.workflowId = "wf1" → n ∉ (db4.deleteWorkflow "wf1").nodes) ∧
    (∀ c ∈ db4.connections, c.workflowId = "wf1" →
       c ∉ (db4.deleteWorkflow "wf1").connections) ∧
    (∀ c ∈ db4.connections, c.fromNodeId ∈ db4.nodeIds ∧ c.toNodeId ∈ db4.nodeIds) :=
  cascade_delete_no_dangling_edges db4 "n1" "wf1" db4_reachable

/-- All members of the Prisma NodeType enum. -/
def allNodeTypes : List NodeType := [NodeType.INITIAL]

/-- Names of the NodeType members as written in the schema. -/
def nodeTypeNames : List String := allNodeTypes.map NodeType.name

/-- The node component registry (config/node-components.ts): NodeType keys
mapped to the registered editor component names. -/
def nodeComponents : List (NodeType × String) := [(NodeType.INITIAL, "InitialNode")]

/-- C4 counterexample: the closed node-kind set of the source (the NodeType
enum, which is also the key set of the component registry) does not contain
a member named MANUAL_TRIGGER or HTTP_REQUEST, so the claimed membership of
those kinds fails. -/
theorem nodeType_lacks_manual_trigger_and_http_request :
    "MANUAL_TRIGGER" ∉ nodeTypeNames ∧ "HTTP_REQUEST" ∉ nodeTypeNames ∧
    ¬("MANUAL_TRIGGER" ∈ nodeTypeNames ∧ "HTTP_REQUEST" ∈ nodeTypeNames ∧
      "INITIAL" ∈ nodeTypeNames) := by
  refine ⟨by decide, by decide, ?_⟩
  intro hcontra
  exact absurd hcontra.1 (by decide)

/-- C4 amended: every node kind is drawn from the closed enumerable set given
by the NodeType enum, whose sole member is the non-executable placeholder
INITIAL; the registry keys coincide with that set, and MANUAL_TRIGGER and
HTTP_REQUEST are not node kinds (manual-trigger and HTTP-request exist in the
source only as editor component files, not as members of the kind set). -/
theorem nodeType_closed_enumeration :
    (∀ t : NodeType, t ∈ allNodeTypes) ∧
    (∀ n : Node, n.type ∈ allNodeTypes) ∧
    nodeTypeNames = ["INITIAL"] ∧
    nodeComponents.map Prod.fst = allNodeTypes ∧
    "MANUAL_TRIGGER" ∉ nodeTypeNames ∧ "HTTP_REQUEST" ∉ nodeTypeNames := by
  refine ⟨?_, ?_, rfl, rfl, by decide, by decide⟩
  · intro t; cases t; exact List.mem_singleton.mpr rfl
  · intro n; cases h : n.type; exact List.mem_singleton.mpr rfl

/-- NodeStatus vocabulary of components/react-flow/node-status-indicator.tsx. -/
inductive NodeStatus where
  | loading : NodeStatus
  | success : NodeStatus
  | error : NodeStatus
  | initial : NodeStatus
deriving DecidableEq, Repr

/-- Name of a NodeStatus member as written in the union type. -/
def NodeStatus.name : NodeStatus → String
  | .loading => "loading"
  | .success => "success"
  | .error => "error"
  | .initial => "initial"

/-- All members of the NodeStatus union. -/
def allNodeStatuses : List NodeStatus :=
  [NodeStatus.loading, NodeStatus.success, NodeStatus.error, NodeStatus.initial]

/-- Modelled from the spec: the execution engine is absent from the source;
section 6 of the spec defines the event emitted per node transition to the
Status/Event Sink, whose status field ranges over
initial, loading, success, error. -/
def engineEventStatusNames : List String := ["initial", "loading", "success", "error"]

/-- C5: the status vocabulary of the engine events specified for the
Status/Event Sink is exactly the four-member NodeStatus vocabulary of the
node-status-indicator component: NodeStatus is exhausted by its four listed
members, both lists are duplicate-free, and the two name sets coincide. -/
theorem engine_status_vocabulary_matches_indicator :
    (∀ s : NodeStatus, s ∈ allNodeStatuses) ∧
    allNodeStatuses.Nodup ∧ engineEventStatusNames.Nodup ∧
    engineEventStatusNames.Perm (allNodeStatuses.map NodeStatus.name) := by
  refine ⟨?_, by decide, by decide, by decide⟩
  intro s
  cases s <;> simp [allNodeStatuses]

/-- Result of running an executor: the returned value together with the
sequence of durable steps performed, each recorded as a pair of the step
name and the value the step produced. -/
structure ExecutorRun (α : Type) where
  value : α
  steps : List (String × α)

/-- Model of step.run applied to a pure callback: the callback result is
returned and one step with the given name and that result is recorded. -/
def stepRun {α : Type} (nm : String) (callback : Unit → α) : ExecutorRun α :=
  { value := callback (), steps := [(nm, callback ())] }

/-- Input of a node executor as destructured by httpRequestExecutor. -/
structure ExecutorInput (α : Type) where
  nodeId : String
  context : α

/-- The placeholder httpRequestExecutor
(features/executions/components/http-request/executor.ts): it awaits one
step named http-request whose callback returns the incoming context, and
returns that step result. -/
def httpRequestExecutor {α : Type} (input : ExecutorInput α) : ExecutorRun α :=
  stepRun "http-request" (fun _ => input.context)

/-- C6: for every input, the placeholder HTTP-request executor returns its
context payload unchanged and performs exactly one step, named http-request,
whose recorded result is that context. -/
theorem httpRequestExecutor_echoes_context {α : Type} (input : ExecutorInput α) :
    (httpRequestExecutor input).value = input.context ∧
    (httpRequestExecutor input).steps = [("http-request", input.context)] :=
  ⟨rfl, rfl⟩

/-- NodeStatusVariant of node-status-indicator.tsx. -/
inductive NodeStatusVariant where
  | overlay : NodeStatusVariant
  | border : NodeStatusVariant
deriving DecidableEq, Repr

/-- Abstract rendering produced by NodeStatusIndicator: either the children
alone, or the children wrapped by one of the three status decorations. -/
inductive Rendered (α : Type) where
  | childrenOnly (children : α) : Rendered α
  | spinnerLoading (children : α) : Rendered α
  | borderLoading (children : α) (className : Option String) : Rendered α
  | statusBorder (base : String) (className : Option String) (children : α) : Rendered α
deriving DecidableEq, Repr

/-- The NodeStatusIndicator component. The variant prop defaults to border
when omitted. The outer switch dispatches on status; any status other than
loading, success or error (including an omitted status) falls through to the
default branch, which returns the children unchanged. -/
def nodeStatusIndicator {α : Type} (status : Option NodeStatus)
    (variant : Option NodeStatusVariant) (className : Option String)
    (children : α) : Rendered α :=
  match status with
  | some .loading =>
      match variant.getD .border with
      | .overlay => .spinnerLoading children
      | .border => .borderLoading children className
  | some .success => .statusBorder "border-green-700/50" className children
  | some .error => .statusBorder "border-red-700/50" className children
  | _ => .childrenOnly children

/-- C9: for a status outside loading, success, error — that is, the status
initial or an omitted status — NodeStatusIndicator renders exactly its
children with no decoration, and an omitted variant behaves exactly as
variant border for every status. -/
theorem nodeStatusIndicator_default_behavior {α : Type}
    (variant : Option NodeStatusVariant) (className : Option String) (children : α) :
    nodeStatusIndicator none variant className children = .childrenOnly children ∧
    nodeStatusIndicator (some .initial) variant className children =
      .childrenOnly children ∧
    (∀ status : Option NodeStatus,
      nodeStatusIndicator status none className children =
        nodeStatusIndicator status (some .border) className children) := by
  refine ⟨rfl, rfl, ?_⟩
  intro status
  match status with
  | none => rfl
  | some .loading => rfl
  | some .success => rfl
  | some .error => rfl
  | some .initial => rfl

/-- HTTP method union from the HttpRequestNode data type. -/
inductive HttpMethod where
  | GET : HttpMethod
  | POST : HttpMethod
  | PUT : HttpMethod
  | PATCH : HttpMethod
  | DELETE : HttpMethod
deriving DecidableEq, Repr

/-- Text of an HTTP method literal. -/
def HttpMethod.text : HttpMethod → String
  | .GET => "GET"
  | .POST => "POST"
  | .PUT => "PUT"
  | .PATCH => "PATCH"
  | .DELETE => "DELETE"

/-- Data carried by an HTTP-request editor node; endpoint, method and body
are all optional. -/
structure HttpRequestNodeData where
  endpoint : Option String
  method : Option HttpMethod
  body : Option String

/-- JavaScript template interpolation of a possibly undefined method: an
undefined value prints as the text undefined. -/
def interpolateMethod : Option HttpMethod → String
  | some m => m.text
  | none => "undefined"

/-- JavaScript truthiness of a possibly undefined string: undefined and the
empty string are falsy, every other string is truthy. -/
def jsTruthy : Option String → Bool
  | some s => !s.isEmpty
  | none => false

/-- Description shown by HttpRequestNode. When the endpoint is truthy the
source template literal concatenates the raw method interpolation, the
literal text consisting of a space, two pipes, a quoted GET, a closing brace
and a colon, and the endpoint; otherwise the description is Not configured. -/
def httpRequestNodeDescription (d : HttpRequestNodeData) : String :=
  if jsTruthy d.endpoint then
    interpolateMethod d.method ++ " || \"GET\"\x7d: " ++ d.endpoint.getD ""
  else "Not configured"

/-- C10 counterexample: a node whose data has a defined endpoint, namely the
empty string, renders Not configured rather than the template, because the
source tests JavaScript truthiness rather than definedness; so the claim
quantified over all defined endpoints fails. -/
theorem httpRequestNode_description_defined_endpoint_cex :
    (HttpRequestNodeData.mk (some "") (some HttpMethod.GET) none).endpoint.isSome
      = true ∧
    httpRequestNodeDescription
        (HttpRequestNodeData.mk (some "") (some HttpMethod.GET) none)
      = "Not configured" ∧
    httpRequestNodeDescription
        (HttpRequestNodeData.mk (some "") (some HttpMethod.GET) none)
      ≠ interpolateMethod (some HttpMethod.GET) ++ " || \"GET\"\x7d: " ++ "" := by
  refine ⟨rfl, rfl, by decide⟩

/-- C10 amended: for every HTTP-request node whose endpoint is truthy
(defined and non-empty), the rendered description is the raw method
interpolation (the text undefined when the method is unset — the method is
never actually defaulted to GET), followed by the literal broken remainder
of the template (space, two pipes, quoted GET, closing brace, colon) and the
endpoint; when the endpoint is falsy (undefined or empty) the description is
exactly Not configured. -/
theorem httpRequestNode_description_template (d : HttpRequestNodeData)
    (h : jsTruthy d.endpoint = true) :
    httpRequestNodeDescription d =
      interpolateMethod d.method ++ " || \"GET\"\x7d: " ++ d.endpoint.getD "" ∧
    (∀ d2 : HttpRequestNodeData, jsTruthy d2.endpoint = false →
      httpRequestNodeDescription d2 = "Not configured") ∧
    interpolateMethod none = "undefined" := by
  refine ⟨?_, ?_, rfl⟩
  · simp [httpRequestNodeDescription, h]
  · intro d2 h2
    simp [httpRequestNodeDescription, h2]

/-- Witness for C10 at a concrete node with endpoint set and method unset. -/
theorem httpRequestNode_description_template_witness :
    httpRequestNodeDescription (HttpRequestNodeData.mk (some "https://x") none none) =
      interpolateMethod none ++ " || \"GET\"\x7d: " ++
        (some "https://x").getD "" :=
  (httpRequestNode_description_template
    (HttpRequestNodeData.mk (some "https://x") none none) (by decide)).1

/-- Modelled from the spec: a node of the editor graph on which the
duplicate-trigger rule of section 3 operates; the duplicate-check constraint
is not present in the source under src, so the kind tag follows the spec
wording. -/
structure EditorNode where
  id : String
  kind : String

/-- Modelled from the spec: the editor graph state, a list of nodes. -/
structure EditorGraphState where
  nodes : List EditorNode

/-- Modelled from the spec: adding a node performs the duplicate check — an
insert of a manual-trigger node is rejected when the graph already contains
one, leaving the graph unchanged. -/
def EditorGraphState.addNode (g : EditorGraphState) (n : EditorNode) :
    Option EditorGraphState :=
  if n.kind = "manual-trigger" ∧
     g.nodes.any (fun m => decide (m.kind = "manual-trigger")) then none
  else some { nodes := g.nodes ++ [n] }

/-- Modelled from the spec: removing a node from the editor graph. -/
def EditorGraphState.removeNode (g : EditorGraphState) (nid : String) :
    EditorGraphState :=
  { nodes := g.nodes.filter (fun n => !(decide (n.id = nid))) }

/-- Editor graph states reachable from the empty graph. -/
inductive EditorReachable : EditorGraphState → Prop where
  | empty : EditorReachable { nodes := [] }
  | addNode {g g2 : EditorGraphState} {n : EditorNode} :
      EditorReachable g → g.addNode n = some g2 → EditorReachable g2
  | removeNode {g : EditorGraphState} (nid : String) :
      EditorReachable g → EditorReachable (g.removeNode nid)

/-- Number of manual-trigger nodes in the editor graph. -/
def manualTriggerCount (g : EditorGraphState) : Nat :=
  (g.nodes.filter (fun n => decide (n.kind = "manual-trigger"))).length

/-- C7: every reachable editor graph contains at most one manual-trigger
node, and once one is present the duplicate check rejects adding another. -/
theorem at_most_one_manual_trigger (g : EditorGraphState)
    (hg : EditorReachable g) :
    manualTriggerCount g ≤ 1 ∧
    (∀ n : EditorNode, n.kind = "manual-trigger" → 1 ≤ manualTriggerCount g →
      g.addNode n = none) := by
  have hcount : manualTriggerCount g ≤ 1 := by
    induction hg with
    | empty => exact Nat.zero_le 1
    | addNode hR hop ih =>
        next g0 g2 n =>
        unfold EditorGraphState.addNode at hop
        split at hop
        · exact absurd hop (by simp)
        · next hguard =>
            cases hop
            unfold manualTriggerCount at ih ⊢
            simp only [List.filter_append, List.length_append]
            by_cases hk : n.kind = "manual-trigger"
            · have hnone : ∀ m ∈ g0.nodes, ¬(m.kind = "manual-trigger") := by
                intro m hm hmk
                exact hguard ⟨hk, List.any_eq_true.mpr ⟨m, hm, by simp [hmk]⟩⟩
              have hz : (g0.nodes.filter
                  (fun n => decide (n.kind = "manual-trigger"))).length = 0 := by
                rw [List.length_eq_zero, List.filter_eq_nil_iff]
                intro m hm
                simp [hnone m hm]
              rw [hz]
              simp [hk]
            · have hz : (List.filter (fun n => decide (n.kind = "manual-trigger"))
                  [n]).length = 0 := by
                simp [hk]
              rw [hz]
              simpa using ih
    | removeNode nid hR ih =>
        next g0 =>
        calc manualTriggerCount (g0.removeNode nid)
            ≤ manualTriggerCount g0 := by
              unfold manualTriggerCount EditorGraphState.removeNode
              exact List.Sublist.length_le
                (List.Sublist.filter _ (List.filter_sublist _))
          _ ≤ 1 := ih
  refine ⟨hcount, ?_⟩
  intro n hk hone
  unfold EditorGraphState.addNode
  rw [if_pos]
  refine ⟨hk, List.any_eq_true.mpr ?_⟩
  unfold manualTriggerCount at hone
  have hne : g.nodes.filter (fun n => decide (n.kind = "manual-trigger")) ≠ [] := by
    intro hnil
    rw [hnil] at hone
    exact absurd hone (by simp)
  obtain ⟨m, hm⟩ := List.exists_mem_of_ne_nil _ hne
  have := List.mem_filter.mp hm
  exact ⟨m, this.1, this.2⟩

/-- Concrete editor graph holding one manual-trigger node. -/
def editorG1 : EditorGraphState :=
  { nodes := [{ id := "t1", kind := "manual-trigger" }] }

theorem editorG1_reachable : EditorReachable editorG1 :=
  @EditorReachable.addNode { nodes := [] } editorG1
    { id := "t1", kind := "manual-trigger" } EditorReachable.empty rfl

/-- Witness for C7 at the concrete one-trigger editor graph. -/
theorem at_most_one_manual_trigger_witness :
    manualTriggerCount editorG1 ≤ 1 ∧
    (∀ n : EditorNode, n.kind = "manual-trigger" → 1 ≤ manualTriggerCount editorG1 →
      editorG1.addNode n = none) :=
  at_most_one_manual_trigger editorG1 editorG1_reachable

/-- Concrete graph view returned by getOne for the workflow of db4. -/
def gView4 : WorkflowGraphView :=
  { id := "wf1", name := "My workflow"
    nodes := [nodeToRF nodeA, nodeToRF nodeB]
    edges := [connectionToRF connInputAB.toRecord] }

/-- Witness for C1 at the concrete database db4. -/
theorem getOne_maps_nodes_and_edges_exactly_witness :
    db4.getOne "wf1" = some gView4 ∧
    gView4.nodes =
      (db4.nodes.filter (fun n => decide (n.workflowId = "wf1"))).map nodeToRF ∧
    gView4.edges =
      (db4.connections.filter (fun c => decide (c.workflowId = "wf1"))).map
        connectionToRF :=
  ⟨rfl, (getOne_maps_nodes_and_edges_exactly db4 "wf1" gView4 rfl).1.1,
    (getOne_maps_nodes_and_edges_exactly db4 "wf1" gView4 rfl).1.2⟩

/-- Modelled from the spec: a node of the execution-engine WorkflowGraph
(section 3); only the identifier matters for planning. -/
structure NodeSpec where
  id : String
  kind : String

/-- Modelled from the spec: a directed edge between named ports (section 3). -/
structure GraphEdge where
  fromNode : String
  fromPort : String
  toNode : String
  toPort : String

/-- Modelled from the spec: the engine WorkflowGraph (section 3); the
execution engine itself is absent from the source. -/
structure EngineGraph where
  nodes : List NodeSpec
  edges : List GraphEdge

/-- Node identifiers of the engine graph. -/
def EngineGraph.nodeIds (g : EngineGraph) : List String := g.nodes.map NodeSpec.id

/-- One forward step along an edge of the engine graph. -/
def EdgeStep (g : EngineGraph) (u v : String) : Prop :=
  ∃ e ∈ g.edges, e.fromNode = u ∧ e.toNode = v

/-- Reachability by following edges forward from a node. -/
def Reaches (g : EngineGraph) : String → String → Prop :=
  Relation.ReflTransGen (EdgeStep g)

/-- Successor node ids of a node. -/
def succsOf (g : EngineGraph) (u : String) : List String :=
  (g.edges.filter (fun e => decide (e.fromNode = u))).map GraphEdge.toNode

/-- One saturation step of the reachable-set computation: append the
successors not seen yet. -/
def reachStep (g : EngineGraph) (acc : List String) : List String :=
  acc ++ ((acc.flatMap (succsOf g)).dedup.filter (fun v => !(decide (v ∈ acc))))

/-- Saturate the reachable set for the given fuel, stopping at a fixed
point. -/
def reachAux (g : EngineGraph) : Nat → List String → List String
  | 0, acc => acc
  | fuel+1, acc =>
      if (reachStep g acc).length = acc.length then acc
      else reachAux g fuel (reachStep g acc)

/-- Node ids reachable from the start node by following edges forward
(breadth-first saturation, per section 4.2). -/
def reach (g : EngineGraph) (s : String) : List String :=
  reachAux g (g.nodes.length + 1) [s]

/-- The reachable-set computation is closed under successors. -/
def SuccClosed (g : EngineGraph) (R : List String) : Prop :=
  ∀ u ∈ R, ∀ v ∈ succsOf g u, v ∈ R

theorem reachStep_keeps_members (g : EngineGraph) (acc : List String) :
    ∀ a ∈ acc, a ∈ reachStep g acc := by
  intro a ha
  exact List.mem_append_left _ ha

theorem reachStep_fixed (g : EngineGraph) (acc : List String)
    (h : (reachStep g acc).length = acc.length) : SuccClosed g acc := by
  unfold reachStep at h
  rw [List.length_append] at h
  have hz :
      ((acc.flatMap (succsOf g)).dedup.filter (fun v => !(decide (v ∈ acc)))).length
        = 0 := by
    omega
  rw [List.length_eq_zero, List.filter_eq_nil_iff] at hz
  intro u hu v hv
  by_contra hvacc
  exact absurd (by simp [hvacc] :
      (!(decide (v ∈ acc))) = true)
    (hz v (List.mem_dedup.mpr (List.mem_flatMap.mpr ⟨u, hu, hv⟩)))

theorem reachStep_nodup (g : EngineGraph) (acc : List String) (h : acc.Nodup) :
    (reachStep g acc).Nodup := by
  unfold reachStep
  rw [List.nodup_append]
  refine ⟨h, (List.nodup_dedup _).filter _, ?_⟩
  intro a ha hmem
  have := (List.mem_filter.mp hmem).2
  simp at this
  exact this ha

theorem reachStep_subset (g : EngineGraph) (acc : List String)
    (hwf : ∀ e ∈ g.edges, e.toNode ∈ g.nodeIds)
    (hacc : ∀ a ∈ acc, a ∈ g.nodeIds) :
    ∀ a ∈ reachStep g acc, a ∈ g.nodeIds := by
  intro a ha
  rcases List.mem_append.mp ha with h1 | h2
  · exact hacc a h1
  · have := (List.mem_filter.mp h2).1
    obtain ⟨u, _, hu⟩ := List.mem_flatMap.mp (List.mem_dedup.mp this)
    obtain ⟨e, he, hea⟩ := List.mem_map.mp hu
    rw [← hea]
    exact hwf e (List.mem_filter.mp he).1

theorem reachStep_sound (g : EngineGraph) (s : String) (acc : List String)
    (hacc : ∀ a ∈ acc, Reaches g s a) :
    ∀ a ∈ reachStep g acc, Reaches g s a := by
  intro a ha
  rcases List.mem_append.mp ha with h1 | h2
  · exact hacc a h1
  · have := (List.mem_filter.mp h2).1
    obtain ⟨u, hu, hsucc⟩ := List.mem_flatMap.mp (List.mem_dedup.mp this)
    obtain ⟨e, he, hea⟩ := List.mem_map.mp hsucc
    refine (hacc u hu).tail ⟨e, (List.mem_filter.mp he).1, ?_, hea⟩
    have := (List.mem_filter.mp he).2
    simpa using this

theorem reachAux_mono (g : EngineGraph) :
    ∀ fuel acc, ∀ a ∈ acc, a ∈ reachAux g fuel acc := by
  intro fuel
  induction fuel with
  | zero => intro acc a ha; exact ha
  | succ n ih =>
      intro acc a ha
      unfold reachAux
      split
      · exact ha
      · exact ih _ a (reachStep_keeps_members g acc a ha)

theorem reachAux_sound (g : EngineGraph) (s : String) :
    ∀ fuel acc, (∀ a ∈ acc, Reaches g s a) →
      ∀ a ∈ reachAux g fuel acc, Reaches g s a := by
  intro fuel
  induction fuel with
  | zero => intro acc hacc a ha; exact hacc a ha
  | succ n ih =>
      intro acc hacc a ha
      unfold reachAux at ha
      split at ha
      · exact hacc a ha
      · exact ih _ (reachStep_sound g s acc hacc) a ha

theorem reachAux_nodup (g : EngineGraph) :
    ∀ fuel acc, acc.Nodup → (reachAux g fuel acc).Nodup := by
  intro fuel
  induction fuel with
  | zero => intro acc h; exact h
  | succ n ih =>
      intro acc h
      unfold reachAux
      split
      · exact h
      · exact ih _ (reachStep_nodup g acc h)

theorem reachAux_subset (g : EngineGraph)
    (hwf : ∀ e ∈ g.edges, e.toNode ∈ g.nodeIds) :
    ∀ fuel acc, (∀ a ∈ acc, a ∈ g.nodeIds) →
      ∀ a ∈ reachAux g fuel acc, a ∈ g.nodeIds := by
  intro fuel
  induction fuel with
  | zero => intro acc hacc a ha; exact hacc a ha
  | succ n ih =>
      intro acc hacc a ha
      unfold reachAux at ha
      split at ha
      · exact hacc a ha
      · exact ih _ (reachStep_subset g acc hwf hacc) a ha

theorem reachAux_closed (g : EngineGraph)
    (hwf : ∀ e ∈ g.edges, e.toNode ∈ g.nodeIds) :
    ∀ fuel acc, acc.Nodup → (∀ a ∈ acc, a ∈ g.nodeIds) →
      g.nodeIds.length + 1 ≤ fuel + acc.length →
      SuccClosed g (reachAux g fuel acc) := by
  intro fuel
  induction fuel with
  | zero =>
      intro acc hnd hsub hbound
      have hle : acc.length ≤ g.nodeIds.length :=
        (hnd.subperm (fun a ha => hsub a ha)).length_le
      omega
  | succ n ih =>
      intro acc hnd hsub hbound
      unfold reachAux
      split
      · next heq => exact reachStep_fixed g acc heq
      · next hne =>
          have hgrow : acc.length + 1 ≤ (reachStep g acc).length := by
            unfold reachStep
            rw [List.length_append]
            unfold reachStep at hne
            rw [List.length_append] at hne
            omega
          exact ih _ (reachStep_nodup g acc hnd)
            (reachStep_subset g acc hwf hsub) (by omega)

theorem reach_sound (g : EngineGraph) (s : String) :
    ∀ a ∈ reach g s, Reaches g s a := by
  refine reachAux_sound g s _ [s] ?_
  intro a ha
  rw [List.mem_singleton] at ha
  rw [ha]
  exact Relation.ReflTransGen.refl

theorem reach_start_mem (g : EngineGraph) (s : String) : s ∈ reach g s :=
  reachAux_mono g _ [s] s (List.mem_singleton.mpr rfl)

theorem reach_nodup (g : EngineGraph) (s : String) : (reach g s).Nodup :=
  reachAux_nodup g _ [s] (List.nodup_singleton s)

theorem reach_closed (g : EngineGraph) (s : String)
    (hwf : ∀ e ∈ g.edges, e.toNode ∈ g.nodeIds) (hs : s ∈ g.nodeIds) :
    SuccClosed g (reach g s) := by
  refine reachAux_closed g hwf _ [s] (List.nodup_singleton s) ?_ ?_
  · intro a ha
    rw [List.mem_singleton] at ha
    rw [ha]; exact hs
  · simp [EngineGraph.nodeIds]

theorem reach_complete (g : EngineGraph) (s : String)
    (hwf : ∀ e ∈ g.edges, e.toNode ∈ g.nodeIds) (hs : s ∈ g.nodeIds) :
    ∀ v, Reaches g s v → v ∈ reach g s := by
  intro v hv
  induction hv with
  | refl => exact reach_start_mem g s
  | tail hru hstep ih =>
      next u w =>
      obtain ⟨e, he, heu, hew⟩ := hstep
      refine reach_closed g s hwf hs u ih w ?_
      unfold succsOf
      exact List.mem_map.mpr ⟨e, List.mem_filter.mpr ⟨he, by simp [heu]⟩, hew⟩

/-- Modelled from the spec: a node is ready to be scheduled when every
in-edge whose source lies in the reachable set has an already planned
source (section 4.2, Kahn-style ordering restricted to the reachable
subgraph). -/
def readyNode (g : EngineGraph) (R placed : List String) (v : String) : Bool :=
  g.edges.all (fun e =>
    !(decide (e.toNode = v)) || !(decide (e.fromNode ∈ R)) ||
      decide (e.fromNode ∈ placed))

/-- Modelled from the spec: Kahn-style scheduling loop — repeatedly emit the
first ready node among the remaining reachable nodes. -/
def planAux (g : EngineGraph) (R : List String) :
    Nat → List String → List String → List String
  | 0, placed, _ => placed
  | fuel+1, placed, remaining =>
      match remaining.find? (readyNode g R placed) with
      | some v => planAux g R fuel (placed ++ [v]) (remaining.erase v)
      | none => placed

/-- Modelled from the spec: plan(graph, startNodeId) — a topological
ordering of exactly the nodes reachable from the start node (section 4.2). -/
def plan (g : EngineGraph) (s : String) : List String :=
  planAux g (reach g s) (reach g s).length [] (reach g s)

theorem readyNode_iff (g : EngineGraph) (R placed : List String) (v : String) :
    readyNode g R placed v = true ↔
      ∀ e ∈ g.edges, e.toNode = v → e.fromNode ∈ R → e.fromNode ∈ placed := by
  unfold readyNode
  rw [List.all_eq_true]
  constructor
  · intro h e he htv hfr
    have := h e he
    simp only [Bool.or_eq_true, Bool.not_eq_true', decide_eq_false_iff_not,
      decide_eq_true_eq] at this
    rcases this with (h1 | h2) | h3
    · exact absurd htv h1
    · exact absurd hfr h2
    · exact h3
  · intro h e he
    simp only [Bool.or_eq_true, Bool.not_eq_true', decide_eq_false_iff_not,
      decide_eq_true_eq]
    by_cases h1 : e.toNode = v
    · by_cases h2 : e.fromNode ∈ R
      · exact Or.inr (h e he h1 h2)
      · exact Or.inl (Or.inr h2)
    · exact Or.inl (Or.inl h1)

theorem planAux_invariant (g : EngineGraph) (R : List String) (rk : String → Nat)
    (hrk : ∀ e ∈ g.edges, e.fromNode ∈ R → e.toNode ∈ R →
      rk e.fromNode < rk e.toNode) :
    ∀ fuel placed remaining,
      remaining.length ≤ fuel →
      (placed ++ remaining).Perm R →
      (∀ e ∈ g.edges, e.fromNode ∈ R → e.toNode ∈ placed →
        [e.fromNode, e.toNode].Sublist placed) →
      (planAux g R fuel placed remaining).Perm R ∧
      (∀ e ∈ g.edges, e.fromNode ∈ R →
        e.toNode ∈ planAux g R fuel placed remaining →
        [e.fromNode, e.toNode].Sublist (planAux g R fuel placed remaining)) := by
  intro fuel
  induction fuel with
  | zero =>
      intro placed remaining hlen hperm horder
      have hnil : remaining = [] := List.length_eq_zero.mp (Nat.le_zero.mp hlen)
      subst hnil
      rw [List.append_nil] at hperm
      exact ⟨hperm, horder⟩
  | succ n ih =>
      intro placed remaining hlen hperm horder
      unfold planAux
      cases hfind : remaining.find? (readyNode g R placed) with
      | some v =>
          have hv : v ∈ remaining := List.mem_of_find?_eq_some hfind
          have hready := List.find?_some hfind
          rw [readyNode_iff] at hready
          have hlen2 : (remaining.erase v).length ≤ n := by
            have := List.length_erase_add_one hv
            omega
          have hperm2 : ((placed ++ [v]) ++ remaining.erase v).Perm R := by
            refine List.Perm.trans ?_ hperm
            rw [List.append_assoc]
            exact List.Perm.append_left placed
              (List.Perm.symm (by simpa using List.perm_cons_erase hv))
          have horder2 : ∀ e ∈ g.edges, e.fromNode ∈ R → e.toNode ∈ placed ++ [v] →
              [e.fromNode, e.toNode].Sublist (placed ++ [v]) := by
            intro e he hfr hto
            rcases List.mem_append.mp hto with h1 | h2
            · exact (horder e he hfr h1).trans (List.sublist_append_left placed [v])
            · rw [List.mem_singleton] at h2
              have hf : e.fromNode ∈ placed := hready e he h2 hfr
              rw [h2]
              exact List.Sublist.append (List.singleton_sublist.mpr hf)
                (List.Sublist.refl [v])
          exact ih (placed ++ [v]) (remaining.erase v) hlen2 hperm2 horder2
      | none =>
          by_cases hrem : remaining = []
          · subst hrem
            rw [List.append_nil] at hperm
            exact ⟨hperm, horder⟩
          · exfalso
            obtain ⟨m, hm⟩ : ∃ m, m ∈ List.argmin rk remaining := by
              cases hh : List.argmin rk remaining with
              | none => exact absurd (List.argmin_eq_none.mp hh) hrem
              | some m => exact ⟨m, rfl⟩
            have hmmem : m ∈ remaining := List.argmin_mem hm
            have hmready : readyNode g R placed m = true := by
              rw [readyNode_iff]
              intro e he htv hfr
              rcases List.mem_append.mp (hperm.mem_iff.mpr hfr) with h1 | h2
              · exact h1
              · exfalso
                have htoR : e.toNode ∈ R := by
                  rw [htv]
                  exact hperm.mem_iff.mp (List.mem_append_right placed hmmem)
                have hlt := hrk e he hfr htoR
                rw [htv] at hlt
                exact List.not_lt_of_mem_argmin h2 hm hlt
            exact (List.find?_eq_none.mp hfind m hmmem) hmready

/-- C8: for every valid DAG graph — edges between existing nodes, start
node present, and a rank function certifying acyclicity — plan returns
exactly the nodes reachable from the start node, each exactly once (the
output is duplicate-free and membership coincides with reachability), and
every edge whose endpoints are both reachable has its source listed
strictly before its target. -/
theorem plan_reachable_topological (g : EngineGraph) (s : String)
    (hwf : ∀ e ∈ g.edges, e.fromNode ∈ g.nodeIds ∧ e.toNode ∈ g.nodeIds)
    (hs : s ∈ g.nodeIds) (rk : String → Nat)
    (hrk : ∀ e ∈ g.edges, rk e.fromNode < rk e.toNode) :
    (∀ v, v ∈ plan g s ↔ Reaches g s v) ∧
    (plan g s).Nodup ∧
    (∀ e ∈ g.edges, Reaches g s e.fromNode → Reaches g s e.toNode →
      e.fromNode ≠ e.toNode ∧ [e.fromNode, e.toNode].Sublist (plan g s)) := by
  have hwf2 : ∀ e ∈ g.edges, e.toNode ∈ g.nodeIds := fun e he => (hwf e he).2
  have hmain := planAux_invariant g (reach g s) rk
    (fun e he _ _ => hrk e he) (reach g s).length [] (reach g s)
    (le_refl _) (by simp) (by intro e he hfr hto; cases hto)
  have hperm : (plan g s).Perm (reach g s) := hmain.1
  refine ⟨?_, ?_, ?_⟩
  · intro v
    rw [hperm.mem_iff]
    exact ⟨fun hv => reach_sound g s v hv,
      fun hv => reach_complete g s hwf2 hs v hv⟩
  · exact hperm.nodup_iff.mpr (reach_nodup g s)
  · intro e he hfr hto
    constructor
    · intro heq
      have := hrk e he
      rw [heq] at this
      exact lt_irrefl _ this
    · exact hmain.2 e he (reach_complete g s hwf2 hs e.fromNode hfr)
        (hperm.mem_iff.mpr (reach_complete g s hwf2 hs e.toNode hto))

/-- Concrete engine graph: a trigger node T feeding a request node N. -/
def engineG : EngineGraph :=
  { nodes := [{ id := "T", kind := "manual-trigger" },
              { id := "N", kind := "http-request" }]
    edges := [{ fromNode := "T", fromPort := "main", toNode := "N", toPort := "main" }] }

/-- Rank function certifying that engineG is acyclic. -/
def engineRk : String → Nat := fun v => if v = "N" then 1 else 0

/-- Witness for C8 at the concrete two-node engine graph. -/
theorem plan_reachable_topological_witness :
    (∀ v, v ∈ plan engineG "T" ↔ Reaches engineG "T" v) ∧
    (plan engineG "T").Nodup ∧
    (∀ e ∈ engineG.edges, Reaches engineG "T" e.fromNode →
      Reaches engineG "T" e.toNode →
      e.fromNode ≠ e.toNode ∧ [e.fromNode, e.toNode].Sublist (plan engineG "T")) :=
  plan_reachable_topological engineG "T" (by decide) (by decide) engineRk (by decide)
